import Mathlib

/-!
Verification development for the JSON action-plan executor of the AI-Diary
backend (the `executeJsonActions` scheduler and its action handlers).

The embedding below is a shallow model of the JavaScript source:

* `Action`, `UpdatedPlan` model the plan objects that `JSON.parse` produces
  (fields that JavaScript may leave `undefined` are `Option`s);
* the external collaborators (Google search via axios, the OpenRouter LLM
  fallback chain, the Ollama plan-conversion call, the Fitbit API, the
  memory store) are modelled as oracles bundled in `Env`; each call site is
  keyed by the data that varies between calls (the action's `query` field);
* each action handler is a total function on the result accumulator,
  because in the source each handler wraps its body in try/catch and
  absorbs every external-call failure (logging it and returning normally);
* the scheduler loop of `executeJsonActions` is a step function
  `execStep` on a `SchedState`, iterated with fuel by `runSched`.
  Queue entries are tagged with a numeric id that models JavaScript
  object identity of the action objects (ids are bookkeeping only:
  the source carries the same information as reference identity).

File-system artifact writes, console logging, wall-clock timestamps and
the insight-extraction helper `parseKeyInsightsFromText` (whose output
only feeds artifact files and the external memory store) are omitted:
no property below depends on them.
-/

namespace AIDiary

/-- Prefix test on character lists (substring search helper). -/
def isPrefixChars : List Char → List Char → Bool
  | [], _ => true
  | _ :: _, [] => false
  | c :: cs, d :: ds => c == d && isPrefixChars cs ds

/-- Does `sub` occur in the list (at any position, including the end)? -/
def containsSub (sub : List Char) : List Char → Bool
  | [] => isPrefixChars sub []
  | c :: t => isPrefixChars sub (c :: t) || containsSub sub t

/-- JavaScript `String.prototype.includes`: `s.includes(sub)` holds iff
`sub` occurs in `s`. Implemented over the character list so that it
evaluates by kernel reduction. -/
def jsIncludes (s sub : String) : Bool := containsSub sub.data s.data

/-- One Google search result as kept by `performGoogleSearch`
(`{title, snippet, link}`, part_000 lines 161-165). -/
structure SearchItem where
  title : String
  snippet : String
  link : String
deriving Repr, DecidableEq

/-- Outcome of the axios call inside `performGoogleSearch`: either the
request succeeded (possibly with an empty item list), or it threw. -/
inductive SearchOutcome where
  | ok (items : List SearchItem)
  | httpError (msg : String)
deriving Repr, DecidableEq

/-- `performGoogleSearch` (part_000 lines 143-176): returns the mapped
items on success and catches any error, logging it and returning `[]`.
It never throws. -/
def performGoogleSearch (outcome : SearchOutcome) : List SearchItem :=
  match outcome with
  | .ok items => items
  | .httpError _ => []

/-- Return value of `callOpenRouterWithFallback` (part_000 lines
2332-2413): `{success, content}`; `content` is present only on success. -/
structure LLMCallResult where
  success : Bool
  content : Option String
deriving Repr, DecidableEq

/-- `callOpenRouterWithFallback` walks the configured fallback model list;
a model that answers ok yields `{success: true, content}`, every failure
(rate limit, server error, client error, network error) moves on to the
next model, and exhausting the list RETURNS `{success: false}` — it does
not throw (part_000 lines 2406-2413). Each list entry is the outcome the
environment assigns to one model (`some content` on success). -/
def callOpenRouterWithFallback : List (Option String) → LLMCallResult
  | [] => { success := false, content := none }
  | some c :: _ => { success := true, content := some c }
  | none :: rest => callOpenRouterWithFallback rest

/-- A JavaScript value as it flows out of `resp.content || resp`: either
the content string, or the whole response object. -/
inductive JSValue where
  | str (s : String)
  | obj (r : LLMCallResult)
deriving Repr, DecidableEq

/-- The idiom `resp.content || resp` used at part_000 lines 1837, 2034 and
2112: a present, nonempty content string is taken; an absent or empty
(falsy) content falls back to the whole response object. -/
def contentOrSelf (r : LLMCallResult) : JSValue :=
  match r.content with
  | some c => if c = "" then .obj r else .str c
  | none => .obj r

/-- JavaScript truthiness of a possibly-absent value of this union, as
used by `!!executionResults.finalResponse` in the execution summary. -/
def jsTruthy : Option JSValue → Bool
  | none => false
  | some (.str s) => !(s == "")
  | some (.obj _) => true

/-- One action object of a parsed plan. All four fields may be absent in
the JSON the LLM returns, hence the `Option`s (`type` missing behaves as
an unknown kind in the dispatch switch, so it is kept as the string and
an absent `type` is not modelled separately; no claim depends on it). -/
structure Action where
  type : String
  query : Option String
  priority : Option Int
  dependencies : Option (List Int)
deriving Repr, DecidableEq

/-- A parsed plan object `{actions: [...]}`; `actions` may be absent. -/
structure UpdatedPlan where
  actions : Option (List Action)
deriving Repr, DecidableEq

/-- Sort key used by `actions.sort((a, b) => (a.priority || 5) - (b.priority || 5))`
(part_000 lines 1475 and 1631). In JavaScript `0` is falsy, so priority 0
also falls back to 5. -/
def sortKey (a : Action) : Int :=
  match a.priority with
  | none => 5
  | some p => if p = 0 then 5 else p

/-- Stable insertion of an action into an already priority-sorted list
(an equal-key element is placed before later elements, preserving the
original order, as JavaScript's stable `Array.prototype.sort` does). -/
def insertSorted (a : Action) : List Action → List Action
  | [] => [a]
  | b :: bs => if sortKey a ≤ sortKey b then a :: b :: bs else b :: insertSorted a bs

/-- Model of the stable ascending-priority sort the executor applies to a
plan's action list. -/
def sortActions (l : List Action) : List Action :=
  l.foldr insertSorted []

/-- The magic phrase whose presence in the Progress Analyzer output
triggers re-planning (part_000 line 1866). -/
def magicPhrase : String := "## UPDATED BREAKDOWN STEPS:"

/-- Outcome of the Ollama plan-conversion call in `check_and_update_plan`
(part_000 lines 1883-1915): an ok HTTP response whose body parsed as JSON
yields a plan object; a non-ok response, a JSON.parse failure or a network
error are all logged and produce no plan. -/
inductive OllamaOutcome where
  | ok (plan : UpdatedPlan)
  | badResponse (msg : String)
  | callError (msg : String)
deriving Repr, DecidableEq

/-- One record appended to `executionResults.analysisResults`: either the
progress-analysis object built in `check_and_update_plan` (line 1840) or
the fallback object built in `basicAnalysis` (line 1931). -/
inductive AnalysisRecord where
  | progress (originalQuery : String) (actionInstruction : Option String) (assessment : JSValue)
  | basic (instruction : Option String) (totalResults : Nat)
deriving Repr, DecidableEq

/-- One record appended to `executionResults.synthesisResults`
(part_000 line 2031). -/
structure SynthesisRecord where
  originalQuery : String
  actionInstruction : Option String
  progressAnalysis : JSValue
deriving Repr, DecidableEq

/-- Fields of `fitbitData.summary` that `executeFitbitData` reads
(part_000 lines 2160-2170). Absent JSON fields are `none`. -/
structure ActivityRawSummary where
  steps : Option Int
  caloriesOut : Option Int
  distances0 : Option Int
  fairlyActiveMinutes : Option Int
  veryActiveMinutes : Option Int
  restingHeartRate : Option Int
  heartRateZones : Option (List String)
deriving Repr, DecidableEq

/-- The payload `getFitbitDailySummary` returns on success:
`{summary, goals}` (summary may be absent, which the handler treats as
no data). `goals` is kept opaque. -/
structure ActivityRaw where
  summary : Option ActivityRawSummary
  goals : Option String
deriving Repr, DecidableEq

/-- The activity snapshot object stored into `executionResults.fitbitData`
(part_000 lines 2160-2170). `restingHeartRate = none` models the string
fallback `|| 'N/A'` (which in JavaScript also fires for a falsy 0).
The wall-clock `timestamp` field is omitted. -/
structure ActivitySnapshot where
  date : String
  steps : Int
  calories : Int
  distance : Int
  activeMinutes : Int
  restingHeartRate : Option Int
  heartRateZones : List String
  goals : Option String
deriving Repr, DecidableEq

/-- One entry of the `sleep` array of the Fitbit sleep payload, with the
fields `executeFitbitSleep` reads (part_000 lines 2211-2224). -/
structure SleepEntry where
  duration : Option Int
  minutesAsleep : Option Int
  minutesAwake : Option Int
  efficiency : Option Int
  startTime : Option String
  endTime : Option String
  timeInBed : Option Int
  levelsPresent : Bool
  restlessCount : Option Int
  restlessDuration : Option Int
deriving Repr, DecidableEq

/-- The payload `getFitbitSleepData` returns on success. -/
structure SleepRaw where
  sleep : Option (List SleepEntry)
  summaryPresent : Bool
deriving Repr, DecidableEq

/-- The sleep snapshot stored into `executionResults.fitbitSleepData`.
`none` for the string fields models the `|| 'N/A'` fallback; the
wall-clock `timestamp` is omitted. -/
structure SleepSnapshot where
  date : String
  duration : Int
  minutesAsleep : Int
  minutesAwake : Int
  efficiency : Int
  startTime : Option String
  endTime : Option String
  timeInBed : Int
  levelsPresent : Bool
  restlessCount : Int
  restlessDuration : Int
  summaryPresent : Bool
deriving Repr, DecidableEq

/-- Outcome of one Fitbit data fetch as seen by the handlers: data, an
empty/null body (no data for the date), or the `Token expired` error the
fetch helpers throw on a 401 (part_000 lines 717-728). -/
inductive FitbitFetch (α : Type) where
  | data (d : α)
  | noData
  | tokenExpired
deriving Repr, DecidableEq

/-- The shared result accumulator `executionResults` created at part_000
lines 1478-1490, one instance per job, mutated by the handlers. -/
structure ExecutionResults where
  searchResults : List SearchItem
  analysisResults : List AnalysisRecord
  synthesisResults : List SynthesisRecord
  finalResponse : Option JSValue
  planUpdateTriggered : Bool
  updatedPlan : Option UpdatedPlan
  fitbitData : Option ActivitySnapshot
  fitbitSleepData : Option SleepSnapshot
  userProfileId : Option String
  authUserId : Option String
  lastMemoryMatches : Option (List String)
deriving Repr, DecidableEq

/-- The external world as the executor sees it. The LLM oracles are keyed
by the dispatched action's `query` (the component of the prompt that
varies between calls at one call site); each yields the per-model outcome
list that `callOpenRouterWithFallback` walks. `ollama` is keyed by the
progress-analysis text it is asked to convert. -/
structure Env where
  maxRetries : Nat
  googleApiKey : Bool
  googleCseId : Bool
  googleSearch : Option String → SearchOutcome
  analyzeModels : Option String → List (Option String)
  synthesisModels : Option String → List (Option String)
  finalModels : Option String → List (Option String)
  ollama : String → OllamaOutcome
  memorySearch : String → Except String (List String)
  fitbitToken : Option String
  fitbitActivity : String → FitbitFetch ActivityRaw
  fitbitSleep : String → FitbitFetch SleepRaw
  today : String

/-- `executeGoogleSearch` (part_000 lines 1663-1691): without configured
credentials it returns at once; otherwise it calls `performGoogleSearch`
(which absorbs provider failures into `[]`) and pushes the items. The
artifact write that follows the push can throw (e.g. `action.query`
undefined), but the catch at line 1688 absorbs it and the already-pushed
items remain, so the push is unconditional here. -/
def executeGoogleSearch (env : Env) (a : Action) (r : ExecutionResults) : ExecutionResults :=
  if env.googleApiKey && env.googleCseId then
    { r with searchResults := r.searchResults ++ performGoogleSearch (env.googleSearch a.query) }
  else r

/-- `basicAnalysis` (part_000 lines 1928-1950): the fallback taken when
the progress-analysis flow throws; appends a basic record. -/
def basicAnalysis (action : Action) (r : ExecutionResults) : ExecutionResults :=
  { r with analysisResults :=
      r.analysisResults ++ [.basic action.query r.searchResults.length] }

/-- `check_and_update_plan` (part_000 lines 1702-1925), the analyze
handler. It calls the Progress Analyzer LLM, always appends the progress
record (line 1862) and then looks for the magic phrase. Only when the
phrase is present AND the Ollama conversion call returns ok JSON does it
set `planUpdateTriggered := true` and `updatedPlan` — always together
(lines 1906-1907). When the LLM fallback chain was exhausted,
`progressContent` is the whole response object and `.includes` throws a
TypeError, which the catch at line 1921 routes to `basicAnalysis`.
The preliminary memory search (lines 1706-1717) only feeds the prompt
and an artifact file, and its errors are caught, so it is omitted. -/
def check_and_update_plan (env : Env) (action : Action) (originalQuery : String)
    (r : ExecutionResults) : ExecutionResults :=
  let resp := callOpenRouterWithFallback (env.analyzeModels action.query)
  let progressContent := contentOrSelf resp
  let r1 := { r with analysisResults :=
      r.analysisResults ++ [.progress originalQuery action.query progressContent] }
  match progressContent with
  | .str s =>
    if jsIncludes s magicPhrase then
      match env.ollama s with
      | .ok plan => { r1 with planUpdateTriggered := true, updatedPlan := some plan }
      | .badResponse _ => r1
      | .callError _ => r1
    else r1
  | .obj _ => basicAnalysis action r1

/-- `executeAnalyzeResults` (part_000 lines 1694-1699) just delegates. -/
def executeAnalyzeResults (env : Env) (action : Action) (originalQuery : String)
    (r : ExecutionResults) : ExecutionResults :=
  check_and_update_plan env action originalQuery r

/-- `executeSynthesize` (part_000 lines 1953-2058): calls the LLM (whose
fallback chain returns rather than throws even on total failure) and
appends the synthesis report; its catch never fires in this model. -/
def executeSynthesize (env : Env) (action : Action) (originalQuery : String)
    (r : ExecutionResults) : ExecutionResults :=
  let resp := callOpenRouterWithFallback (env.synthesisModels action.query)
  { r with synthesisResults :=
      r.synthesisResults ++ [{ originalQuery := originalQuery,
                               actionInstruction := action.query,
                               progressAnalysis := contentOrSelf resp }] }

/-- `executeFormulateResponse` (part_000 lines 2061-2142): sets
`executionResults.finalResponse = finalAnswerResponse.content || finalAnswerResponse`
(lines 2112-2114) unconditionally, overwriting any earlier value — even
when the fallback chain was exhausted (the error object is stored). The
artifact write and memory store that follow cannot undo the write. -/
def executeFormulateResponse (env : Env) (action : Action) (r : ExecutionResults) :
    ExecutionResults :=
  let resp := callOpenRouterWithFallback (env.finalModels action.query)
  { r with finalResponse := some (contentOrSelf resp) }

/-- The characters after the first occurrence of `sub`. -/
def afterFirst (sub : List Char) : List Char → List Char
  | [] => []
  | c :: t => if isPrefixChars sub (c :: t) then (c :: t).drop sub.length else afterFirst sub t

/-- The characters before the next occurrence of `sub`. -/
def upToSub (sub : List Char) : List Char → List Char
  | [] => []
  | c :: t => if isPrefixChars sub (c :: t) then [] else c :: upToSub sub t

/-- Whitespace for `trim`. -/
def isJsSpace (c : Char) : Bool := c == ' ' || c == '\t' || c == '\n' || c == '\r'

/-- JavaScript `String.prototype.trim` on a character list. -/
def trimChars (l : List Char) : List Char :=
  ((l.dropWhile isJsSpace).reverse.dropWhile isJsSpace).reverse

/-- The date selection shared by the two Fitbit handlers (part_000 lines
2153-2155): `action.query.split('date:')[1].trim().split(' ')[0]` — the
segment between the first occurrence of `date:` and the next, trimmed,
cut at the first space. -/
def extractDateArg (q : String) : String :=
  String.mk ((trimChars (upToSub "date:".data (afterFirst "date:".data q.data))).takeWhile
    (fun c => !(c == ' ')))

/-- Model of `x || 'N/A'` for a numeric field: an absent or zero (falsy)
number becomes the `N/A` marker, here `none`. -/
def numOrNA (o : Option Int) : Option Int :=
  match o with
  | some v => if v = 0 then none else some v
  | none => none

/-- `executeFitbitData` (part_000 lines 2145-2191). The whole body is in
try/catch, so every failure path returns with the accumulator untouched:
no access token; `action.query` absent (line 2153 dereferences it, the
TypeError is caught); a `Token expired` throw from the fetch; a null
payload; a payload without `summary`. Only a payload with a summary
overwrites `executionResults.fitbitData`. -/
def executeFitbitData (env : Env) (action : Action) (r : ExecutionResults) : ExecutionResults :=
  match env.fitbitToken with
  | none => r
  | some _ =>
    match action.query with
    | none => r
    | some q =>
      let date := if jsIncludes q "date:" then extractDateArg q else env.today
      match env.fitbitActivity date with
      | .tokenExpired => r
      | .noData => r
      | .data raw =>
        match raw.summary with
        | none => r
        | some s =>
          { r with fitbitData := some ({
                date := date,
                steps := s.steps.getD 0,
                calories := s.caloriesOut.getD 0,
                distance := s.distances0.getD 0,
                activeMinutes := s.fairlyActiveMinutes.getD 0 + s.veryActiveMinutes.getD 0,
                restingHeartRate := numOrNA s.restingHeartRate,
                heartRateZones := s.heartRateZones.getD [],
                goals := raw.goals }) }

/-- `executeFitbitSleep` (part_000 lines 2194-2246), same shape as the
activity handler; it requires a nonempty `sleep` array and snapshots its
first entry. -/
def executeFitbitSleep (env : Env) (action : Action) (r : ExecutionResults) : ExecutionResults :=
  match env.fitbitToken with
  | none => r
  | some _ =>
    match action.query with
    | none => r
    | some q =>
      let date := if jsIncludes q "date:" then extractDateArg q else env.today
      match env.fitbitSleep date with
      | .tokenExpired => r
      | .noData => r
      | .data raw =>
        match raw.sleep with
        | some (mainSleep :: _) =>
          { r with fitbitSleepData := some ({
                date := date,
                duration := mainSleep.duration.getD 0,
                minutesAsleep := mainSleep.minutesAsleep.getD 0,
                minutesAwake := mainSleep.minutesAwake.getD 0,
                efficiency := mainSleep.efficiency.getD 0,
                startTime := mainSleep.startTime,
                endTime := mainSleep.endTime,
                timeInBed := mainSleep.timeInBed.getD 0,
                levelsPresent := mainSleep.levelsPresent,
                restlessCount := mainSleep.restlessCount.getD 0,
                restlessDuration := mainSleep.restlessDuration.getD 0,
                summaryPresent := raw.summaryPresent }) }
        | some [] => r
        | none => r

/-- An exception escaping a handler into the scheduler's catch at
part_000 line 1616. Kept in the dispatch type because the source wraps
the switch in try/catch; the theorems show no modelled handler produces
one (every handler catches its own external-call failures). -/
inductive HandlerError where
  | raised (msg : String)
deriving Repr, DecidableEq

/-- The dispatch switch of `executeJsonActions` (part_000 lines
1524-1611). The `memory_search` case (lines 1579-1589) stores the matches
when a profile id is present and swallows errors; `memory_store` (lines
1590-1608) only has an external side effect and swallows errors; an
unknown `type` is logged and falls through (line 1609). -/
def dispatchAction (env : Env) (originalQuery : String) (a : Action) (r : ExecutionResults) :
    Except HandlerError ExecutionResults :=
  match a.type with
  | "google_search" => .ok (executeGoogleSearch env a r)
  | "analyze_results" => .ok (executeAnalyzeResults env a originalQuery r)
  | "synthesize" => .ok (executeSynthesize env a originalQuery r)
  | "formulate_response" => .ok (executeFormulateResponse env a r)
  | "get_fitbit_data" => .ok (executeFitbitData env a r)
  | "get_fitbit_sleep" => .ok (executeFitbitSleep env a r)
  | "memory_search" =>
    .ok (match r.userProfileId with
         | some _ =>
           match env.memorySearch (a.query.getD "") with
           | .ok ms => { r with lastMemoryMatches := some ms }
           | .error _ => r
         | none => r)
  | "memory_store" => .ok r
  | _ => .ok r

/-- Scheduler events, one batch per loop iteration, tagged with the queue
entry's identity id. -/
inductive Event where
  | deferred (id : Nat) (a : Action)
  | depDropped (id : Nat) (a : Action)
  | dispatched (id : Nat) (a : Action)
  | failRequeued (id : Nat) (a : Action)
  | failDropped (id : Nat) (a : Action)
  | completedOk (id : Nat) (a : Action)
  | planSwapped
deriving Repr, DecidableEq

/-- The scheduler's private state inside the `while` loop of
`executeJsonActions`: the work queue (entries tagged with identity ids),
the completed-set, the attempt-count map (keyed by `action.priority`,
which may be absent), the shared accumulator, and the next fresh id. -/
structure SchedState where
  queue : List (Nat × Action)
  completed : List Int
  attempts : List (Option Int × Nat)
  results : ExecutionResults
  nextId : Nat
deriving Repr, DecidableEq

/-- `attemptCounts.get(stepNum) || 0` (part_000 line 1503). -/
def lookupAttempts (m : List (Option Int × Nat)) (k : Option Int) : Nat :=
  match m.find? (fun p => p.1 == k) with
  | some p => p.2
  | none => 0

/-- `attemptCounts.set(stepNum, v)`. -/
def setAttempts (m : List (Option Int × Nat)) (k : Option Int) (v : Nat) :
    List (Option Int × Nat) :=
  (k, v) :: m.filter (fun p => !(p.1 == k))

/-- `completedActions.add(p)` (a JS `Set`: only membership matters). -/
def insertCompleted (c : List Int) (p : Int) : List Int :=
  if p ∈ c then c else c ++ [p]

/-- The unmet-dependency computation at part_000 lines 1508-1509: absent
or non-array `dependencies` skips the check entirely. -/
def depsUnmet (completed : List Int) (a : Action) : List Int :=
  match a.dependencies with
  | some deps => deps.filter (fun d => !(completed.contains d))
  | none => []

/-- Marking an action completed (part_000 lines 1612-1615): only when its
`priority` is present. -/
def markCompleted (completed : List Int) (a : Action) : List Int :=
  match a.priority with
  | some p => insertCompleted completed p
  | none => completed

/-- The queue installed by a plan swap (part_000 lines 1630-1633): the
replacement plan's actions (missing `actions` behaves as `[]`),
stable-sorted by priority, tagged with fresh identity ids. -/
def freshQueue (acts : List Action) (nextId : Nat) : List (Nat × Action) :=
  ((sortActions acts).enum).map (fun e => (nextId + e.1, e.2))

/-- One iteration of the `while (queue.length > 0)` loop of
`executeJsonActions` (part_000 lines 1500-1637): pop the head; defer or
permanently drop on unmet dependencies (lines 1507-1521); otherwise
dispatch, mark completed on normal return (1612-1615) or requeue/drop on
a handler exception (1616-1627); finally, on every path that reaches line
1629 (normal return, or exception with the budget exhausted), consume a
pending plan update: replace the queue, clear the attempt counts and
clear the flag — but not the `updatedPlan` reference (1630-1636). -/
def execStep (env : Env) (originalQuery : String) (s : SchedState) :
    Option (SchedState × List Event) :=
  match s.queue with
  | [] => none
  | (i, a) :: rest =>
    let stepNum := a.priority
    let attempts := lookupAttempts s.attempts stepNum
    if depsUnmet s.completed a ≠ [] then
      if attempts < env.maxRetries then
        some ({ s with queue := rest ++ [(i, a)],
                       attempts := setAttempts s.attempts stepNum (attempts + 1) },
              [.deferred i a])
      else
        some ({ s with queue := rest }, [.depDropped i a])
    else
      match dispatchAction env originalQuery a s.results with
      | .ok r1 =>
        let completed1 := markCompleted s.completed a
        let noSwap : SchedState × List Event :=
          ({ s with queue := rest, completed := completed1, results := r1 },
           [.dispatched i a, .completedOk i a])
        if r1.planUpdateTriggered then
          match r1.updatedPlan with
          | some p =>
            some ({ queue := freshQueue (p.actions.getD []) s.nextId,
                    completed := completed1,
                    attempts := [],
                    results := { r1 with planUpdateTriggered := false },
                    nextId := s.nextId + (sortActions (p.actions.getD [])).length },
                  [.dispatched i a, .completedOk i a, .planSwapped])
          | none => some noSwap
        else some noSwap
      | .error _ =>
        if attempts + 1 < env.maxRetries then
          some ({ s with queue := rest ++ [(i, a)],
                         attempts := setAttempts s.attempts stepNum (attempts + 1) },
                [.dispatched i a, .failRequeued i a])
        else
          let noSwap : SchedState × List Event :=
            ({ s with queue := rest }, [.dispatched i a, .failDropped i a])
          if s.results.planUpdateTriggered then
            match s.results.updatedPlan with
            | some p =>
              some ({ queue := freshQueue (p.actions.getD []) s.nextId,
                      completed := s.completed,
                      attempts := [],
                      results := { s.results with planUpdateTriggered := false },
                      nextId := s.nextId + (sortActions (p.actions.getD [])).length },
                    [.dispatched i a, .failDropped i a, .planSwapped])
            | none => some noSwap
          else some noSwap

/-- The loop, iterated with fuel (the source loop has no bound of its
own; every property below holds for every fuel). Returns the final state
and the per-iteration trace of (post-state, events). -/
def runSched (env : Env) (originalQuery : String) :
    Nat → SchedState → SchedState × List (SchedState × List Event)
  | 0, s => (s, [])
  | Nat.succ fuel, s =>
    match execStep env originalQuery s with
    | none => (s, [])
    | some (s1, evs) =>
      let rest := runSched env originalQuery fuel s1
      (rest.1, (s1, evs) :: rest.2)

/-- All events of a trace, in order. -/
def traceEvents (tr : List (SchedState × List Event)) : List Event :=
  (tr.map Prod.snd).flatten

/-- The accumulator as initialised at part_000 lines 1478-1490. -/
def initResults (preFetchedFitbitData : Option ActivitySnapshot)
    (userProfileId authUserId : Option String) : ExecutionResults :=
  { searchResults := [], analysisResults := [], synthesisResults := [],
    finalResponse := none, planUpdateTriggered := false, updatedPlan := none,
    fitbitData := preFetchedFitbitData, fitbitSleepData := none,
    userProfileId := userProfileId, authUserId := authUserId,
    lastMemoryMatches := none }

/-- The scheduler state before the first iteration: the sorted plan with
identity ids `0..n-1`, empty completed-set and attempt map. -/
def initState (acts : List Action) (r : ExecutionResults) : SchedState :=
  let sorted := sortActions acts
  { queue := sorted.enum, completed := [], attempts := [], results := r,
    nextId := sorted.length }

/-- The execution summary object (part_000 lines 1643-1652); the
wall-clock `timestamp` is omitted. -/
structure ExecutionSummary where
  totalActions : Nat
  searchResultsFound : Nat
  analysisCompleted : Bool
  synthesisCompleted : Bool
  finalResponseGenerated : Bool
  fitbitDataRetrieved : Bool
  fitbitSleepDataRetrieved : Bool
deriving Repr, DecidableEq

/-- Building the summary from the final accumulator. -/
def mkSummary (totalActions : Nat) (r : ExecutionResults) : ExecutionSummary :=
  { totalActions := totalActions,
    searchResultsFound := r.searchResults.length,
    analysisCompleted := decide (0 < r.analysisResults.length),
    synthesisCompleted := decide (0 < r.synthesisResults.length),
    finalResponseGenerated := jsTruthy r.finalResponse,
    fitbitDataRetrieved := r.fitbitData.isSome,
    fitbitSleepDataRetrieved := r.fitbitSleepData.isSome }

/-- `executeJsonActions` (part_000 lines 1466-1660). An absent or empty
`actions` list returns at once — before the summary is built — so no
`ExecutionSummary` exists for that case (lines 1469-1472); otherwise the
loop runs and a summary over the original sorted count is produced. -/
def executeJsonActions (env : Env) (fuel : Nat) (planActions : Option (List Action))
    (originalQuery : String) (preFetchedFitbitData : Option ActivitySnapshot)
    (userProfileId authUserId : Option String) :
    Option ExecutionSummary × List (SchedState × List Event) :=
  match planActions with
  | none => (none, [])
  | some acts =>
    if acts.length = 0 then (none, [])
    else
      let s0 := initState acts (initResults preFetchedFitbitData userProfileId authUserId)
      let out := runSched env originalQuery fuel s0
      (some (mkSummary (sortActions acts).length out.1.results), out.2)

/-! ## Helper notions for the scheduler proofs -/

/-- The identity ids currently in the work queue. -/
def queueIds (s : SchedState) : List Nat := s.queue.map Prod.fst

/-- The id an event refers to, if any. -/
def evId : Event → Option Nat
  | .deferred i _ => some i
  | .depDropped i _ => some i
  | .dispatched i _ => some i
  | .failRequeued i _ => some i
  | .failDropped i _ => some i
  | .completedOk i _ => some i
  | .planSwapped => none

/-- Recognizer for a dispatch of queue entry `i`. -/
def isDispOf (i : Nat) : Event → Bool
  | .dispatched j _ => j == i
  | _ => false

/-- Recognizer for a deferral of queue entry `i`. -/
def isDeferOf (i : Nat) : Event → Bool
  | .deferred j _ => j == i
  | _ => false

/-- Recognizer for the two events of the scheduler's handler-exception
path (part_000 lines 1616-1627). -/
def isFailureEvent : Event → Bool
  | .failRequeued _ _ => true
  | .failDropped _ _ => true
  | _ => false

/-- How many times queue entry `i` was dispatched in a trace. -/
def cntDisp (i : Nat) (evs : List Event) : Nat := evs.countP (isDispOf i)

/-- How many times queue entry `i` was deferred in a trace. -/
def cntDefer (i : Nat) (evs : List Event) : Nat := evs.countP (isDeferOf i)

theorem cntDisp_append (i : Nat) (l1 l2 : List Event) :
    cntDisp i (l1 ++ l2) = cntDisp i l1 + cntDisp i l2 :=
  List.countP_append _ l1 l2

theorem cntDefer_append (i : Nat) (l1 l2 : List Event) :
    cntDefer i (l1 ++ l2) = cntDefer i l1 + cntDefer i l2 :=
  List.countP_append _ l1 l2

/-- A trace whose events never mention `i` contributes no counts. -/
theorem cnt_eq_zero_of_not_mentioned (i : Nat) (evs : List Event)
    (h : ∀ e ∈ evs, evId e ≠ some i) : cntDisp i evs = 0 ∧ cntDefer i evs = 0 := by
  induction evs with
  | nil => exact ⟨rfl, rfl⟩
  | cons e tl ih =>
    have he := h e (by simp)
    have htl := ih (fun e' he' => h e' (by simp [he']))
    refine ⟨?_, ?_⟩ <;>
      · simp only [cntDisp, cntDefer, List.countP_cons] at *
        cases e <;> simp_all [isDispOf, isDeferOf, evId]

/-- `Map.get || 0` after `Map.set` at the same key. -/
theorem lookup_set_self (m : List (Option Int × Nat)) (k : Option Int) (v : Nat) :
    lookupAttempts (setAttempts m k v) k = v := by
  simp [lookupAttempts, setAttempts, List.find?]

/-- `Map.get || 0` after `Map.set` at a different key. -/
theorem lookup_set_ne (m : List (Option Int × Nat)) (k k' : Option Int) (v : Nat)
    (h : k' ≠ k) : lookupAttempts (setAttempts m k v) k' = lookupAttempts m k' := by
  have hk : (k == k') = false := by simp [beq_eq_false_iff_ne]; exact fun he => h he.symm
  simp only [lookupAttempts, setAttempts, List.find?, hk]
  congr 1
  induction m with
  | nil => rfl
  | cons q tl ih =>
    by_cases hq : q.1 = k'
    · have h1 : (q.1 == k') = true := by simp [hq]
      have h2 : (q.1 == k) = false := by simp [beq_eq_false_iff_ne, hq]; exact fun he => h (hq ▸ he)
      simp [List.filter_cons, h2, List.find?, h1]
    · have h1 : (q.1 == k') = false := by simp [beq_eq_false_iff_ne, hq]
      by_cases h2 : q.1 = k
      · simp [List.filter_cons, h2, List.find?, h1, hk, ih]
      · have h2' : (q.1 == k) = false := by simp [beq_eq_false_iff_ne, h2]
        simp [List.filter_cons, h2', List.find?, h1, ih]

/-- Bumping one key never decreases any lookup. -/
theorem lookup_le_set_bump (m : List (Option Int × Nat)) (k k' : Option Int) :
    lookupAttempts m k' ≤
      lookupAttempts (setAttempts m k (lookupAttempts m k + 1)) k' := by
  by_cases h : k' = k
  · subst h; rw [lookup_set_self]; omega
  · rw [lookup_set_ne _ _ _ _ h]

/-- The empty attempt map reads 0 everywhere. -/
theorem lookup_nil (k : Option Int) : lookupAttempts [] k = 0 := rfl

/-- Membership in the completed-set after insertion. -/
theorem mem_insertCompleted (c : List Int) (p q : Int) :
    q ∈ insertCompleted c p ↔ q ∈ c ∨ q = p := by
  unfold insertCompleted
  split <;> rename_i h
  · constructor
    · exact fun hq => Or.inl hq
    · rintro (hq | rfl) <;> [exact hq; exact h]
  · simp [List.mem_append]

/-- The completed-set only grows at a completion mark. -/
theorem subset_markCompleted (c : List Int) (a : Action) : c ⊆ markCompleted c a := by
  unfold markCompleted
  split
  · intro q hq; rw [mem_insertCompleted]; exact Or.inl hq
  · exact fun _ h => h

/-- `depsUnmet = []` says every listed dependency is in the completed-set. -/
theorem depsUnmet_nil_iff (completed : List Int) (a : Action) :
    depsUnmet completed a = [] ↔ ∀ d ∈ a.dependencies.getD [], d ∈ completed := by
  unfold depsUnmet
  match hd : a.dependencies with
  | none => simp
  | some deps =>
    simp only [Option.getD_some, List.filter_eq_nil_iff]
    constructor
    · intro h d hdm
      have := h d hdm
      simpa [List.contains, List.elem_eq_mem] using this
    · intro h d hdm
      simpa [List.contains, List.elem_eq_mem] using h d hdm

/-- The ids of a freshly installed queue are `nextId + 0, …`. -/
theorem queueIds_freshQueue (acts : List Action) (n : Nat) :
    (freshQueue acts n).map Prod.fst = (List.range (sortActions acts).length).map (n + ·) := by
  unfold freshQueue
  rw [List.map_map]
  calc ((sortActions acts).enum).map (Prod.fst ∘ fun e => (n + e.1, e.2))
      = ((sortActions acts).enum).map ((n + ·) ∘ Prod.fst) := by rfl
    _ = (((sortActions acts).enum).map Prod.fst).map (n + ·) := by rw [List.map_map]
    _ = (List.range (sortActions acts).length).map (n + ·) := by rw [List.enum_map_fst]

/-- The actions of a freshly installed queue are the sorted plan. -/
theorem queueActions_freshQueue (acts : List Action) (n : Nat) :
    (freshQueue acts n).map Prod.snd = sortActions acts := by
  unfold freshQueue
  rw [List.map_map]
  calc ((sortActions acts).enum).map (Prod.snd ∘ fun e => (n + e.1, e.2))
      = ((sortActions acts).enum).map Prod.snd := by rfl
    _ = sortActions acts := List.enum_map_snd _

/-- Fresh queue ids are distinct and bounded. -/
theorem freshQueue_nodup (acts : List Action) (n : Nat) :
    ((freshQueue acts n).map Prod.fst).Nodup := by
  rw [queueIds_freshQueue]
  exact (List.nodup_range _).map (fun a b h => by omega)

/-- Every fresh id lies in `[n, n + len)`. -/
theorem mem_freshQueue_ids (acts : List Action) (n j : Nat)
    (h : j ∈ (freshQueue acts n).map Prod.fst) :
    n ≤ j ∧ j < n + (sortActions acts).length := by
  rw [queueIds_freshQueue] at h
  simp only [List.mem_map, List.mem_range] at h
  obtain ⟨t, ht, rfl⟩ := h
  omega


/-- Helper: the state after a deferral. -/
def deferState (s : SchedState) (i : Nat) (a : Action) (rest : List (Nat × Action)) : SchedState :=
  { s with queue := rest ++ [(i, a)],
           attempts := setAttempts s.attempts a.priority (lookupAttempts s.attempts a.priority + 1) }

/-- Helper: the state after a plan swap following a successful dispatch. -/
def swapState (s : SchedState) (a : Action) (r1 : ExecutionResults) (p : UpdatedPlan) : SchedState :=
  { queue := freshQueue (p.actions.getD []) s.nextId,
    completed := markCompleted s.completed a,
    attempts := [],
    results := { r1 with planUpdateTriggered := false },
    nextId := s.nextId + (sortActions (p.actions.getD [])).length }

/-- No modelled handler ever raises: every branch of the dispatch switch
returns normally, because each handler absorbs its external-call failures
(`performGoogleSearch` returns `[]`, the LLM fallback chain returns a
failure object, the Fitbit and memory handlers catch). -/
theorem dispatch_always_ok (env : Env) (oq : String) (a : Action) (r : ExecutionResults) :
    ∃ r1, dispatchAction env oq a r = .ok r1 := by
  unfold dispatchAction
  split <;> exact ⟨_, rfl⟩

/-- Characterization of one scheduler iteration on a nonempty queue: it
defers, dependency-drops, completes, or completes-and-swaps. The
handler-exception branches of the source (lines 1616-1627) are
unreachable because `dispatch_always_ok`. -/
theorem execStep_spec (env : Env) (oq : String) (s : SchedState) (i : Nat) (a : Action)
    (rest : List (Nat × Action)) (hq : s.queue = (i, a) :: rest) :
    (depsUnmet s.completed a ≠ [] ∧ lookupAttempts s.attempts a.priority < env.maxRetries ∧
       execStep env oq s = some (deferState s i a rest, [.deferred i a]))
  ∨ (depsUnmet s.completed a ≠ [] ∧ ¬ lookupAttempts s.attempts a.priority < env.maxRetries ∧
       execStep env oq s = some ({ s with queue := rest }, [.depDropped i a]))
  ∨ (∃ r1, depsUnmet s.completed a = [] ∧ dispatchAction env oq a s.results = .ok r1 ∧
       ¬ (r1.planUpdateTriggered = true ∧ r1.updatedPlan.isSome) ∧
       execStep env oq s = some ({ s with queue := rest, completed := markCompleted s.completed a, results := r1 },
         [.dispatched i a, .completedOk i a]))
  ∨ (∃ r1 p, depsUnmet s.completed a = [] ∧ dispatchAction env oq a s.results = .ok r1 ∧
       r1.planUpdateTriggered = true ∧ r1.updatedPlan = some p ∧
       execStep env oq s = some (swapState s a r1 p, [.dispatched i a, .completedOk i a, .planSwapped])) := by
  obtain ⟨r1, hr1⟩ := dispatch_always_ok env oq a s.results
  by_cases hdep : depsUnmet s.completed a ≠ []
  · by_cases hatt : lookupAttempts s.attempts a.priority < env.maxRetries
    · left
      refine ⟨hdep, hatt, ?_⟩
      unfold execStep; rw [hq]
      simp only [if_pos hdep, if_pos hatt, deferState]
    · right; left
      refine ⟨hdep, hatt, ?_⟩
      unfold execStep; rw [hq]
      simp only [if_pos hdep, if_neg hatt]
  · push_neg at hdep
    by_cases hflag : r1.planUpdateTriggered = true
    · cases hp : r1.updatedPlan with
      | some p =>
        right; right; right
        refine ⟨r1, p, hdep, hr1, hflag, hp, ?_⟩
        unfold execStep; rw [hq]
        simp [hdep, hr1, hflag, hp, swapState]
      | none =>
        right; right; left
        refine ⟨r1, hdep, hr1, by simp [hp], ?_⟩
        unfold execStep; rw [hq]
        simp [hdep, hr1, hflag, hp]
    · right; right; left
      have hflag2 : r1.planUpdateTriggered = false := by simpa using hflag
      refine ⟨r1, hdep, hr1, by simp [hflag2], ?_⟩
      unfold execStep; rw [hq]
      simp [hdep, hr1, hflag2]

/-- A step on the empty queue does nothing. -/
theorem execStep_nil (env : Env) (oq : String) (s : SchedState) (hq : s.queue = []) :
    execStep env oq s = none := by
  unfold execStep; rw [hq]

/-- A step exists exactly on a nonempty queue. -/
theorem execStep_isSome_of_cons (env : Env) (oq : String) (s : SchedState) (i : Nat)
    (a : Action) (rest : List (Nat × Action)) (hq : s.queue = (i, a) :: rest) :
    ∃ s1 evs, execStep env oq s = some (s1, evs) := by
  rcases execStep_spec env oq s i a rest hq with ⟨_, _, h⟩ | ⟨_, _, h⟩ | ⟨r1, _, _, _, h⟩ | ⟨r1, p, _, _, _, _, h⟩ <;>
    exact ⟨_, _, h⟩

/-- Every event a step emits refers to the popped head of the queue (or
to no entry at all, for `planSwapped`). -/
theorem execStep_events_head (env : Env) (oq : String) (s : SchedState) (i : Nat) (a : Action)
    (rest : List (Nat × Action)) (s1 : SchedState) (evs : List Event)
    (hq : s.queue = (i, a) :: rest) (h : execStep env oq s = some (s1, evs)) :
    ∀ e ∈ evs, ∀ j, evId e = some j → j = i := by
  rcases execStep_spec env oq s i a rest hq with ⟨_, _, h2⟩ | ⟨_, _, h2⟩ | ⟨r1, _, _, _, h2⟩ | ⟨r1, p, _, _, _, _, h2⟩ <;>
    · rw [h] at h2
      obtain ⟨rfl, rfl⟩ : s1 = _ ∧ evs = _ := by
        have := Option.some.inj h2
        exact ⟨congrArg Prod.fst this, congrArg Prod.snd this⟩
      intro e he j hj
      simp only [List.mem_cons, List.mem_singleton] at he
      rcases he with rfl | rfl | rfl | he <;> simp_all [evId]

/-- An id absent from the queue and below the fresh-id bound stays absent
and below the bound across one step, and no event of the step mentions it. -/
theorem notin_step (env : Env) (oq : String) (s s1 : SchedState) (evs : List Event) (j : Nat)
    (h : execStep env oq s = some (s1, evs))
    (hj : j ∉ queueIds s) (hb : j < s.nextId) :
    (j ∉ queueIds s1 ∧ j < s1.nextId) ∧ ∀ e ∈ evs, evId e ≠ some j := by
  match hq : s.queue with
  | [] => rw [execStep_nil env oq s hq] at h; exact absurd h (by simp)
  | (i, a) :: rest =>
    have hji : j ≠ i := by
      intro hji; apply hj; unfold queueIds; rw [hq, hji]; simp
    have hjrest : j ∉ rest.map Prod.fst := by
      intro hjr; apply hj; unfold queueIds; rw [hq]
      simp only [List.map_cons, List.mem_cons]
      exact Or.inr hjr
    have hevs : ∀ e ∈ evs, evId e ≠ some j := by
      intro e he hje
      have := execStep_events_head env oq s i a rest s1 evs hq h e he j hje
      exact hji this
    refine ⟨?_, hevs⟩
    rcases execStep_spec env oq s i a rest hq with ⟨_, _, h2⟩ | ⟨_, _, h2⟩ | ⟨r1, _, _, _, h2⟩ | ⟨r1, p, _, _, _, _, h2⟩ <;>
      rw [h] at h2 <;>
      obtain ⟨rfl, rfl⟩ : s1 = _ ∧ evs = _ :=
        (fun hpq => ⟨congrArg Prod.fst hpq, congrArg Prod.snd hpq⟩) (Option.some.inj h2)
    · constructor
      · simp only [deferState, queueIds, List.map_append]
        intro hmem
        rcases List.mem_append.mp hmem with hm | hm
        · exact hjrest hm
        · simp at hm; exact hji hm
      · exact hb
    · constructor
      · exact fun hm => hjrest hm
      · exact hb
    · constructor
      · exact fun hm => hjrest hm
      · exact hb
    · constructor
      · intro hm
        have := mem_freshQueue_ids (p.actions.getD []) s.nextId j hm
        omega
      · simp only [swapState]; omega

/-- Propagation of `notin_step` along a whole run: the id is never again
in the queue, and no later event mentions it. -/
theorem notin_run (env : Env) (oq : String) (fuel : Nat) (s : SchedState) (j : Nat)
    (hj : j ∉ queueIds s) (hb : j < s.nextId) :
    ∀ b ∈ (runSched env oq fuel s).2, j ∉ queueIds b.1 ∧ ∀ e ∈ b.2, evId e ≠ some j := by
  induction fuel generalizing s with
  | zero => simp [runSched]
  | succ n ih =>
    intro b hbm
    unfold runSched at hbm
    match hE : execStep env oq s with
    | none => rw [hE] at hbm; simp at hbm
    | some (s1, evs) =>
      rw [hE] at hbm
      simp only [List.mem_cons] at hbm
      obtain ⟨⟨hj1, hb1⟩, hevs⟩ := notin_step env oq s s1 evs j hE hj hb
      rcases hbm with rfl | hbm
      · exact ⟨hj1, hevs⟩
      · exact ih s1 hj1 hb1 b hbm


/-- Injectivity helper for `some (state, events)` equations. -/
theorem some_pair_inj {α β : Type} {x1 x2 : α} {y1 y2 : β}
    (h : (some (x1, y1) : Option (α × β)) = some (x2, y2)) : x1 = x2 ∧ y1 = y2 := by
  have := Option.some.inj h
  exact ⟨congrArg Prod.fst this, congrArg Prod.snd this⟩

/-- Well-formedness of the scheduler state: queue ids are distinct and
below the fresh-id bound. -/
def WF (s : SchedState) : Prop :=
  (queueIds s).Nodup ∧ ∀ j ∈ queueIds s, j < s.nextId

/-- One step preserves well-formedness. -/
theorem wf_step (env : Env) (oq : String) (s s1 : SchedState) (evs : List Event)
    (h : execStep env oq s = some (s1, evs)) (hwf : WF s) : WF s1 := by
  obtain ⟨hnd, hbd⟩ := hwf
  match hq : s.queue with
  | [] => rw [execStep_nil env oq s hq] at h; exact absurd h (by simp)
  | (i, a) :: rest =>
    have hids : queueIds s = i :: rest.map Prod.fst := by unfold queueIds; rw [hq]; rfl
    rw [hids] at hnd hbd
    rcases execStep_spec env oq s i a rest hq with ⟨_, _, h2⟩ | ⟨_, _, h2⟩ | ⟨r1, _, _, _, h2⟩ | ⟨r1, p, _, _, _, _, h2⟩ <;>
      rw [h] at h2 <;>
      obtain ⟨rfl, rfl⟩ := some_pair_inj h2
    · constructor
      · show ((rest ++ [(i, a)]).map Prod.fst).Nodup
        rw [List.map_append]
        exact ((List.perm_append_singleton i (rest.map Prod.fst)).nodup_iff).mpr hnd
      · intro j hj
        show j < s.nextId
        have hq1 : queueIds (deferState s i a rest) = rest.map Prod.fst ++ [i] := by
          unfold deferState queueIds
          simp [List.map_append]
        rw [hq1] at hj
        exact hbd j ((List.perm_append_singleton i (rest.map Prod.fst)).mem_iff.mp hj)
    · exact ⟨hnd.of_cons, fun j hj => hbd j (List.mem_cons_of_mem i hj)⟩
    · exact ⟨hnd.of_cons, fun j hj => hbd j (List.mem_cons_of_mem i hj)⟩
    · constructor
      · exact freshQueue_nodup _ _
      · intro j hj
        have := mem_freshQueue_ids (p.actions.getD []) s.nextId j hj
        show j < s.nextId + (sortActions (p.actions.getD [])).length
        omega

/-- What a plan-swap step does (part_000 lines 1629-1636): the queue is
replaced wholesale by the replacement plan's actions (stable-sorted, with
fresh ids), the attempt map is cleared, the completed-set is preserved,
the flag is cleared — and the `updatedPlan` reference stays set. -/
theorem swap_step_props (env : Env) (oq : String) (s s1 : SchedState) (evs : List Event)
    (i : Nat) (a : Action) (rest : List (Nat × Action))
    (hq : s.queue = (i, a) :: rest)
    (h : execStep env oq s = some (s1, evs))
    (hbd : ∀ j ∈ queueIds s, j < s.nextId)
    (hsw : Event.planSwapped ∈ evs) :
    ∃ p, s1.results.updatedPlan = some p ∧
      s1.results.planUpdateTriggered = false ∧
      s1.queue.map Prod.snd = sortActions (p.actions.getD []) ∧
      s1.attempts = [] ∧
      s.completed ⊆ s1.completed ∧
      (∀ j ∈ queueIds s, j ∉ queueIds s1) ∧
      s.nextId ≤ s1.nextId := by
  rcases execStep_spec env oq s i a rest hq with ⟨_, _, h2⟩ | ⟨_, _, h2⟩ | ⟨r1, _, _, _, h2⟩ | ⟨r1, p, _, _, _, hp, h2⟩ <;>
    rw [h] at h2 <;>
    obtain ⟨rfl, rfl⟩ := some_pair_inj h2
  · exact absurd hsw (by simp)
  · exact absurd hsw (by simp)
  · exact absurd hsw (by simp)
  · refine ⟨p, ?_, rfl, ?_, rfl, ?_, ?_, ?_⟩
    · show ({ r1 with planUpdateTriggered := false } : ExecutionResults).updatedPlan = some p
      simpa using hp
    · exact queueActions_freshQueue _ _
    · exact subset_markCompleted s.completed a
    · intro j hj hj1
      have h1 := hbd j hj
      have h2 := mem_freshQueue_ids (p.actions.getD []) s.nextId j hj1
      omega
    · show s.nextId ≤ s.nextId + (sortActions (p.actions.getD [])).length
      omega


theorem cntDisp_deferred (j i : Nat) (a : Action) : cntDisp j [Event.deferred i a] = 0 := by
  simp [cntDisp, isDispOf, List.countP_cons]

theorem cntDefer_deferred (j i : Nat) (a : Action) :
    cntDefer j [Event.deferred i a] = if i = j then 1 else 0 := by
  by_cases h : i = j <;> simp [cntDefer, isDeferOf, List.countP_cons, h]

theorem cntDisp_depDropped (j i : Nat) (a : Action) : cntDisp j [Event.depDropped i a] = 0 := by
  simp [cntDisp, isDispOf, List.countP_cons]

theorem cntDefer_depDropped (j i : Nat) (a : Action) : cntDefer j [Event.depDropped i a] = 0 := by
  simp [cntDefer, isDeferOf, List.countP_cons]

theorem cntDisp_completeEvs (j i : Nat) (a : Action) :
    cntDisp j [Event.dispatched i a, Event.completedOk i a] = if i = j then 1 else 0 := by
  by_cases h : i = j <;> simp [cntDisp, isDispOf, List.countP_cons, h]

theorem cntDefer_completeEvs (j i : Nat) (a : Action) :
    cntDefer j [Event.dispatched i a, Event.completedOk i a] = 0 := by
  simp [cntDefer, isDeferOf, List.countP_cons]

theorem cntDisp_swapEvs (j i : Nat) (a : Action) :
    cntDisp j [Event.dispatched i a, Event.completedOk i a, Event.planSwapped] = if i = j then 1 else 0 := by
  by_cases h : i = j <;> simp [cntDisp, isDispOf, List.countP_cons, h]

theorem cntDefer_swapEvs (j i : Nat) (a : Action) :
    cntDefer j [Event.dispatched i a, Event.completedOk i a, Event.planSwapped] = 0 := by
  simp [cntDefer, isDeferOf, List.countP_cons]

/-- The retry/deferral bookkeeping invariant carried along a run: `hist`
is the event trace so far. An entry still in the queue has never been
dispatched and has been deferred at most its attempt count; an entry no
longer in the queue was dispatched at most once and deferred at most
`maxRetries` times; every attempt count is at most `maxRetries`; and all
events mention ids below the fresh-id bound. -/
structure CountInv (env : Env) (s : SchedState) (hist : List Event) : Prop where
  nodup : (queueIds s).Nodup
  idBound : ∀ j ∈ queueIds s, j < s.nextId
  attBound : ∀ k, lookupAttempts s.attempts k ≤ env.maxRetries
  histBound : ∀ e ∈ hist, ∀ j, evId e = some j → j < s.nextId
  alive : ∀ p ∈ s.queue,
    cntDisp p.1 hist = 0 ∧ cntDefer p.1 hist ≤ lookupAttempts s.attempts p.2.priority
  dead : ∀ j, j ∉ queueIds s → cntDisp j hist ≤ 1 ∧ cntDefer j hist ≤ env.maxRetries

theorem countInv_step (env : Env) (oq : String) (s s1 : SchedState) (evs : List Event)
    (hist : List Event) (h : execStep env oq s = some (s1, evs))
    (hinv : CountInv env s hist) : CountInv env s1 (hist ++ evs) := by
  obtain ⟨hnd, hbd, hatt, hhist, halive, hdead⟩ := hinv
  match hq : s.queue with
  | [] => rw [execStep_nil env oq s hq] at h; exact absurd h (by simp)
  | (i, a) :: rest =>
    have hids : queueIds s = i :: rest.map Prod.fst := by unfold queueIds; rw [hq]; rfl
    have hiq : i ∈ queueIds s := by rw [hids]; simp
    have hinext : i < s.nextId := hbd i hiq
    have hirest : i ∉ rest.map Prod.fst := by
      rw [hids] at hnd; exact (List.nodup_cons.mp hnd).1
    have haliveHead : cntDisp i hist = 0 ∧ cntDefer i hist ≤ lookupAttempts s.attempts a.priority :=
      halive (i, a) (by rw [hq]; simp)
    have hnd2 : (i :: rest.map Prod.fst).Nodup := by rw [hids] at hnd; exact hnd
    rcases execStep_spec env oq s i a rest hq with ⟨hd, hv, h2⟩ | ⟨hd, hv, h2⟩ | ⟨r1, hd, hds, hnf, h2⟩ | ⟨r1, p, hd, hds, hf, hp, h2⟩ <;>
      rw [h] at h2 <;>
      obtain ⟨rfl, rfl⟩ := some_pair_inj h2
    · -- deferral
      have hq1 : queueIds (deferState s i a rest) = rest.map Prod.fst ++ [i] := by
        unfold deferState queueIds; simp [List.map_append]
      refine ⟨?_, ?_, ?_, ?_, ?_, ?_⟩
      · rw [hq1]
        exact ((List.perm_append_singleton i (rest.map Prod.fst)).nodup_iff).mpr (hids ▸ hnd)
      · intro j hj
        rw [hq1] at hj
        have := (List.perm_append_singleton i (rest.map Prod.fst)).mem_iff.mp hj
        exact hbd j (hids ▸ this)
      · intro k
        show lookupAttempts (setAttempts s.attempts a.priority (lookupAttempts s.attempts a.priority + 1)) k ≤ env.maxRetries
        by_cases hk : k = a.priority
        · subst hk; rw [lookup_set_self]; omega
        · rw [lookup_set_ne _ _ _ _ hk]; exact hatt k
      · intro e he j hj
        rcases List.mem_append.mp he with he | he
        · exact hhist e he j hj
        · simp only [List.mem_singleton] at he
          subst he
          simp only [evId, Option.some.injEq] at hj
          subst hj; exact hinext
      · intro q hqm
        show cntDisp q.1 (hist ++ [Event.deferred i a]) = 0 ∧
          cntDefer q.1 (hist ++ [Event.deferred i a]) ≤
            lookupAttempts (setAttempts s.attempts a.priority (lookupAttempts s.attempts a.priority + 1)) q.2.priority
        have hqm2 : q ∈ rest ++ [(i, a)] := hqm
        rcases List.mem_append.mp hqm2 with hm | hm
        · have hqi : q.1 ≠ i := by
            intro hqi; apply hirest; rw [← hqi]; exact List.mem_map_of_mem Prod.fst hm
          have hal := halive q (by rw [hq]; exact List.mem_cons_of_mem _ hm)
          rw [cntDisp_append, cntDefer_append, cntDisp_deferred, cntDefer_deferred]
          rw [if_neg (fun hh => hqi hh.symm)]
          refine ⟨by omega, ?_⟩
          have := lookup_le_set_bump s.attempts a.priority q.2.priority
          omega
        · simp only [List.mem_singleton] at hm
          subst hm
          dsimp only
          rw [cntDisp_append, cntDefer_append, cntDisp_deferred, cntDefer_deferred, if_pos rfl]
          rw [lookup_set_self]
          exact ⟨by omega, by omega⟩
      · intro j hj
        rw [hq1] at hj
        have hj2 : j ∉ queueIds s := by
          rw [hids]
          intro hm
          apply hj
          exact (List.perm_append_singleton i (rest.map Prod.fst)).mem_iff.mpr hm
        have hji : j ≠ i := by
          intro hji; subst hji; exact hj2 hiq
        have hd2 := hdead j hj2
        rw [cntDisp_append, cntDefer_append, cntDisp_deferred, cntDefer_deferred]
        rw [if_neg (fun hh => hji hh.symm)]
        omega
    · -- dependency drop
      refine ⟨hnd2.of_cons, ?_, hatt, ?_, ?_, ?_⟩
      · intro j hj
        exact hbd j (by rw [hids]; exact List.mem_cons_of_mem i hj)
      · intro e he j hj
        rcases List.mem_append.mp he with he | he
        · exact hhist e he j hj
        · simp only [List.mem_singleton] at he
          subst he
          simp only [evId, Option.some.injEq] at hj
          subst hj; exact hinext
      · intro q hqm
        dsimp only
        have hqi : q.1 ≠ i := by
          intro hqi; apply hirest; rw [← hqi]; exact List.mem_map_of_mem Prod.fst hqm
        have hal := halive q (by rw [hq]; exact List.mem_cons_of_mem _ hqm)
        rw [cntDisp_append, cntDefer_append, cntDisp_depDropped, cntDefer_depDropped]
        exact ⟨by omega, by omega⟩
      · intro j hj
        dsimp only at hj ⊢
        rw [cntDisp_append, cntDefer_append, cntDisp_depDropped, cntDefer_depDropped]
        by_cases hji : j = i
        · subst hji
          refine ⟨by omega, ?_⟩
          have := hatt a.priority
          omega
        · have hj2 : j ∉ queueIds s := by
            rw [hids]; intro hm
            rcases List.mem_cons.mp hm with hm | hm
            · exact hji hm
            · exact hj hm
          have := hdead j hj2
          omega
    · -- dispatch, completed, no swap
      refine ⟨hnd2.of_cons, ?_, hatt, ?_, ?_, ?_⟩
      · intro j hj
        exact hbd j (by rw [hids]; exact List.mem_cons_of_mem i hj)
      · intro e he j hj
        rcases List.mem_append.mp he with he | he
        · exact hhist e he j hj
        · rcases List.mem_cons.mp he with rfl | he
          · simp only [evId, Option.some.injEq] at hj; subst hj; exact hinext
          · simp only [List.mem_singleton] at he
            subst he
            simp only [evId, Option.some.injEq] at hj
            subst hj; exact hinext
      · intro q hqm
        dsimp only
        have hqi : q.1 ≠ i := by
          intro hqi; apply hirest; rw [← hqi]; exact List.mem_map_of_mem Prod.fst hqm
        have hal := halive q (by rw [hq]; exact List.mem_cons_of_mem _ hqm)
        rw [cntDisp_append, cntDefer_append, cntDisp_completeEvs, cntDefer_completeEvs]
        rw [if_neg (fun hh => hqi hh.symm)]
        exact ⟨by omega, by omega⟩
      · intro j hj
        dsimp only at hj ⊢
        rw [cntDisp_append, cntDefer_append, cntDisp_completeEvs, cntDefer_completeEvs]
        by_cases hji : j = i
        · subst hji
          rw [if_pos rfl]
          refine ⟨by omega, ?_⟩
          have := hatt a.priority
          omega
        · rw [if_neg (fun hh => hji hh.symm)]
          have hj2 : j ∉ queueIds s := by
            rw [hids]; intro hm
            rcases List.mem_cons.mp hm with hm | hm
            · exact hji hm
            · exact hj hm
          have := hdead j hj2
          omega
    · -- dispatch, completed, plan swap
      have hq1 : queueIds (swapState s a r1 p) = (freshQueue (p.actions.getD []) s.nextId).map Prod.fst := rfl
      have hnext1 : (swapState s a r1 p).nextId = s.nextId + (sortActions (p.actions.getD [])).length := rfl
      have hfresh : ∀ j ∈ queueIds (swapState s a r1 p),
          s.nextId ≤ j ∧ j < s.nextId + (sortActions (p.actions.getD [])).length := by
        intro j hj
        rw [hq1] at hj
        exact mem_freshQueue_ids _ _ _ hj
      refine ⟨?_, ?_, ?_, ?_, ?_, ?_⟩
      · rw [hq1]; exact freshQueue_nodup _ _
      · intro j hj
        have := hfresh j hj
        rw [hnext1]; omega
      · intro k
        show lookupAttempts [] k ≤ env.maxRetries
        rw [lookup_nil]; omega
      · intro e he j hj
        rw [hnext1]
        rcases List.mem_append.mp he with he | he
        · have := hhist e he j hj; omega
        · rcases List.mem_cons.mp he with rfl | he
          · simp only [evId, Option.some.injEq] at hj; omega
          · rcases List.mem_cons.mp he with rfl | he
            · simp only [evId, Option.some.injEq] at hj; omega
            · simp only [List.mem_singleton] at he
              subst he
              simp [evId] at hj
      · intro q hqm
        dsimp only [swapState]
        have hqfresh : s.nextId ≤ q.1 := by
          have := hfresh q.1 (by rw [hq1]; exact List.mem_map_of_mem Prod.fst hqm)
          omega
        have hnotHist : ∀ e ∈ hist, evId e ≠ some q.1 := by
          intro e he hje
          have := hhist e he q.1 hje
          omega
        have hz := cnt_eq_zero_of_not_mentioned q.1 hist hnotHist
        have hqi : q.1 ≠ i := by omega
        rw [cntDisp_append, cntDefer_append, cntDisp_swapEvs, cntDefer_swapEvs]
        rw [if_neg (fun hh => hqi hh.symm)]
        rw [lookup_nil]
        omega
      · intro j hj
        rw [cntDisp_append, cntDefer_append, cntDisp_swapEvs, cntDefer_swapEvs]
        by_cases hji : j = i
        · subst hji
          rw [if_pos rfl]
          refine ⟨by omega, ?_⟩
          have := hatt a.priority
          omega
        · rw [if_neg (fun hh => hji hh.symm)]
          by_cases hjr : j ∈ rest.map Prod.fst
        
          · obtain ⟨q, hqm, rfl⟩ := List.mem_map.mp hjr
            have hal := halive q (by rw [hq]; exact List.mem_cons_of_mem _ hqm)
            have := hatt q.2.priority
            omega
          · have hj2 : j ∉ queueIds s := by
              rw [hids]; intro hm
              rcases List.mem_cons.mp hm with hm | hm
              · exact hji hm
              · exact hjr hm
            have := hdead j hj2
            omega


theorem traceEvents_cons (b : SchedState × List Event) (tr : List (SchedState × List Event)) :
    traceEvents (b :: tr) = b.2 ++ traceEvents tr := rfl

/-- The counting invariant propagates along a whole run. -/
theorem countInv_run (env : Env) (oq : String) (fuel : Nat) (s : SchedState) (hist : List Event)
    (hinv : CountInv env s hist) :
    CountInv env (runSched env oq fuel s).1
      (hist ++ traceEvents (runSched env oq fuel s).2) := by
  induction fuel generalizing s hist with
  | zero => simpa [runSched, traceEvents] using hinv
  | succ n ih =>
    unfold runSched
    match hE : execStep env oq s with
    | none => simpa [traceEvents] using hinv
    | some (s1, evs) =>
      have hstep := countInv_step env oq s s1 evs hist hE hinv
      have := ih s1 (hist ++ evs) hstep
      simpa [traceEvents_cons, List.append_assoc] using this

/-- The invariant holds at the initial state of a job with an empty
history. -/
theorem countInv_init (env : Env) (acts : List Action) (r : ExecutionResults) :
    CountInv env (initState acts r) [] := by
  refine ⟨?_, ?_, ?_, ?_, ?_, ?_⟩
  · show ((initState acts r).queue.map Prod.fst).Nodup
    unfold initState
    simpa using List.nodup_range (sortActions acts).length
  · intro j hj
    have hq : queueIds (initState acts r) = List.range (sortActions acts).length := by
      unfold initState queueIds
      simp [List.enum_map_fst]
    have hn : (initState acts r).nextId = (sortActions acts).length := rfl
    rw [hq] at hj
    rw [hn]
    exact List.mem_range.mp hj
  · intro k
    show lookupAttempts [] k ≤ env.maxRetries
    rw [lookup_nil]; omega
  · intro e he
    exact absurd he (List.not_mem_nil e)
  · intro p hp
    exact ⟨rfl, Nat.le_refl 0⟩
  · intro j hj
    exact ⟨by simp [cntDisp, List.countP_nil], by simp [cntDefer, List.countP_nil]⟩

/-- Attempt-count bound, extracted over a whole run from a job's initial
state: no queue entry is ever dispatched or deferred more than
`maxRetries` times (for any positive retry budget). -/
theorem run_counts_bounded (env : Env) (oq : String) (hM : 1 ≤ env.maxRetries)
    (fuel : Nat) (acts : List Action) (r : ExecutionResults) (j : Nat) :
    cntDisp j (traceEvents (runSched env oq fuel (initState acts r)).2) ≤ env.maxRetries ∧
    cntDefer j (traceEvents (runSched env oq fuel (initState acts r)).2) ≤ env.maxRetries := by
  have h := countInv_run env oq fuel (initState acts r) [] (countInv_init env acts r)
  rw [List.nil_append] at h
  obtain ⟨hnd, hbd, hatt, hhist, halive, hdead⟩ := h
  set sF := (runSched env oq fuel (initState acts r)).1
  set T := traceEvents (runSched env oq fuel (initState acts r)).2
  by_cases hj : j ∈ queueIds sF
  · obtain ⟨q, hqm, hq1⟩ := List.mem_map.mp hj
    have h1 := halive q hqm
    have h3 := hatt q.2.priority
    rw [hq1] at h1
    omega
  · have := hdead j hj
    omega


/-! ## Shared helpers and concrete fixtures for the claim theorems -/

/-- The closed action-kind vocabulary of the dispatch switch (spec section 6,
part_000 lines 1524-1608), in source naming. -/
def actionKinds : List String :=
  ["google_search", "analyze_results", "synthesize", "formulate_response",
   "get_fitbit_data", "get_fitbit_sleep", "memory_search", "memory_store"]

/-- A kind outside the switch falls into the default case: logged and
returned unchanged, no exception (part_000 lines 1609-1610). -/
theorem dispatch_unknown (env : Env) (oq : String) (a : Action) (r : ExecutionResults)
    (h : a.type ∉ actionKinds) : dispatchAction env oq a r = .ok r := by
  unfold dispatchAction
  split
  all_goals first
    | rfl
    | (rename_i heq; exact absurd (by rw [heq]; decide) h)

/-- A permanently dropped entry leaves the queue at the dropping step and
sits below the fresh-id bound. -/
theorem drop_step (env : Env) (oq : String) (s s1 : SchedState) (evs : List Event)
    (i : Nat) (a : Action) (rest : List (Nat × Action)) (j : Nat) (b : Action)
    (hq : s.queue = (i, a) :: rest)
    (h : execStep env oq s = some (s1, evs))
    (hnd : (queueIds s).Nodup) (hbd : ∀ k ∈ queueIds s, k < s.nextId)
    (hdrop : Event.depDropped j b ∈ evs ∨ Event.failDropped j b ∈ evs) :
    j ∉ queueIds s1 ∧ j < s1.nextId := by
  have hids : queueIds s = i :: rest.map Prod.fst := by unfold queueIds; rw [hq]; rfl
  rcases execStep_spec env oq s i a rest hq with ⟨_, _, h2⟩ | ⟨_, _, h2⟩ | ⟨r1, _, _, _, h2⟩ | ⟨r1, p, _, _, _, _, h2⟩ <;>
    rw [h] at h2 <;> obtain ⟨rfl, rfl⟩ := some_pair_inj h2
  · rcases hdrop with hm | hm <;> exact absurd hm (by simp)
  · have hji : j = i := by
      rcases hdrop with hm | hm
      · simp only [List.mem_singleton, Event.depDropped.injEq] at hm
        exact hm.1
      · exact absurd hm (by simp)
    subst hji
    constructor
    · show j ∉ rest.map Prod.fst
      rw [hids] at hnd
      exact (List.nodup_cons.mp hnd).1
    · exact hbd j (by rw [hids]; simp)
  · rcases hdrop with hm | hm <;> exact absurd hm (by simp)
  · rcases hdrop with hm | hm <;> exact absurd hm (by simp)

/-- One step never emits a handler-failure event (the retry-on-exception
path of part_000 lines 1616-1627 is dead code: no handler raises). -/
theorem execStep_no_failure_events (env : Env) (oq : String) (s s1 : SchedState)
    (evs : List Event) (h : execStep env oq s = some (s1, evs)) :
    evs.countP isFailureEvent = 0 := by
  match hq : s.queue with
  | [] => rw [execStep_nil env oq s hq] at h; exact absurd h (by simp)
  | (i, a) :: rest =>
    rcases execStep_spec env oq s i a rest hq with ⟨_, _, h2⟩ | ⟨_, _, h2⟩ | ⟨r1, _, _, _, h2⟩ | ⟨r1, p, _, _, _, _, h2⟩ <;>
      rw [h] at h2 <;> obtain ⟨rfl, rfl⟩ := some_pair_inj h2 <;>
      simp [List.countP_cons, isFailureEvent]

/-- No run ever emits a handler-failure event. -/
theorem run_no_failure_events (env : Env) (oq : String) (fuel : Nat) (s : SchedState) :
    (traceEvents (runSched env oq fuel s).2).countP isFailureEvent = 0 := by
  induction fuel generalizing s with
  | zero => simp [runSched, traceEvents]
  | succ n ih =>
    unfold runSched
    match hE : execStep env oq s with
    | none => simp [traceEvents]
    | some (s1, evs) =>
      have h1 := execStep_no_failure_events env oq s s1 evs hE
      have h2 := ih s1
      simp only [traceEvents_cons, List.countP_append]
      omega

/-- A trivial environment for concrete runs: no credentials, no models
configured, no device token. -/
def envTriv : Env :=
  { maxRetries := 3, googleApiKey := false, googleCseId := false,
    googleSearch := fun _ => .ok [],
    analyzeModels := fun _ => [], synthesisModels := fun _ => [],
    finalModels := fun _ => [],
    ollama := fun _ => .callError "unreachable",
    memorySearch := fun _ => .error "unreachable",
    fitbitToken := none,
    fitbitActivity := fun _ => .noData, fitbitSleep := fun _ => .noData,
    today := "2026-10-11" }

/-- The accumulator of a job started with no pre-fetched data and no user
context. -/
def emptyAccum : ExecutionResults := initResults none none none


/-! ## Claim theorems -/

/-- C7 counterexample: executing an empty Plan does NOT produce an
ExecutionSummary — `executeJsonActions` returns at line 1471, before the
summary is built, so there is no summary with all counts zero as the
claim states. -/
theorem empty_plan_no_summary_cex :
    (executeJsonActions envTriv 10 (some []) "query" none none none).1 = none := rfl

/-- C7 (amended): executing an empty (or absent) action list is a no-op —
no handler is invoked, no event occurs, no exception is raised — and the
executor returns early WITHOUT producing an ExecutionSummary. -/
theorem empty_plan_noop (env : Env) (fuel : Nat) (oq : String)
    (pre : Option ActivitySnapshot) (u1 u2 : Option String) :
    executeJsonActions env fuel (some []) oq pre u1 u2 = (none, []) ∧
    executeJsonActions env fuel none oq pre u1 u2 = (none, []) :=
  ⟨rfl, rfl⟩

/-- C10: an action whose kind is outside the 8 handled kinds that reaches
dispatch is logged (default case, line 1609), raises no error, consumes
no retry budget (the attempt map is untouched), leaves the accumulator
unchanged, and still has its priority added to the completed-set
(lines 1612-1615) — so any later action depending on that priority
becomes runnable as if the unknown action had succeeded. -/
theorem unknown_kind_completes (env : Env) (oq : String) (s : SchedState) (i : Nat)
    (a : Action) (rest : List (Nat × Action)) (p : Int)
    (hq : s.queue = (i, a) :: rest)
    (htype : a.type ∉ actionKinds)
    (hp : a.priority = some p)
    (hdep : depsUnmet s.completed a = [])
    (hflag : s.results.planUpdateTriggered = false) :
    execStep env oq s =
      some ({ s with queue := rest, completed := insertCompleted s.completed p, results := s.results }, [.dispatched i a, .completedOk i a]) ∧
    p ∈ insertCompleted s.completed p := by
  have hdisp := dispatch_unknown env oq a s.results htype
  have hmk : markCompleted s.completed a = insertCompleted s.completed p := by
    unfold markCompleted; rw [hp]
  rcases execStep_spec env oq s i a rest hq with ⟨hd, _, _⟩ | ⟨hd, _, _⟩ | ⟨r1, _, hds, _, h2⟩ | ⟨r1, p2, _, hds, hf, _, _⟩
  · exact absurd hdep hd
  · exact absurd hdep hd
  · rw [hdisp] at hds
    have hr1 : r1 = s.results := (Except.ok.inj hds).symm
    subst hr1
    rw [hmk] at h2
    exact ⟨h2, (mem_insertCompleted s.completed p p).mpr (Or.inr rfl)⟩
  · rw [hdisp] at hds
    have hr1 : r1 = s.results := (Except.ok.inj hds).symm
    subst hr1
    rw [hflag] at hf
    exact absurd hf (by simp)

/-- The concrete state used to witness C10: one unknown-kind action,
with a dependent action behind it. -/
def unknownAct : Action :=
  { type := "get_current_time", query := some "now", priority := some 4,
    dependencies := some [] }

def sUnknown : SchedState :=
  { queue := [(0, unknownAct)], completed := [], attempts := [],
    results := emptyAccum, nextId := 1 }

/-- C10 witness: the theorem applied to a concrete unknown-kind action. -/
theorem unknown_kind_completes_witness :
    execStep envTriv "q" sUnknown =
      some ({ sUnknown with queue := [], completed := insertCompleted [] 4, results := emptyAccum }, [.dispatched 0 unknownAct, .completedOk 0 unknownAct]) ∧
    (4 : Int) ∈ insertCompleted [] 4 :=
  unknown_kind_completes envTriv "q" sUnknown 0 unknownAct [] 4 rfl (by decide) rfl rfl rfl

/-- C6: an Action handler is only invoked when every priority listed in
the action's `dependencies` is already in the completed-set (part_000
lines 1507-1521 dispatch only when the unmet list is empty) — in
particular the disjunction of the claim (completed OR permanently
dropped) holds via its first arm, and no action with a pending
satisfiable dependency is ever dispatched. -/
theorem dependency_satisfaction (env : Env) (oq : String) (s s1 : SchedState)
    (evs : List Event) (i : Nat) (a : Action)
    (h : execStep env oq s = some (s1, evs))
    (hdisp : Event.dispatched i a ∈ evs) :
    ∀ d ∈ a.dependencies.getD [], d ∈ s.completed := by
  match hq : s.queue with
  | [] => rw [execStep_nil env oq s hq] at h; exact absurd h (by simp)
  | (i0, a0) :: rest =>
    rcases execStep_spec env oq s i0 a0 rest hq with ⟨_, _, h2⟩ | ⟨_, _, h2⟩ | ⟨r1, hd, _, _, h2⟩ | ⟨r1, p, hd, _, _, _, h2⟩ <;>
      rw [h] at h2 <;> obtain ⟨rfl, rfl⟩ := some_pair_inj h2
    · exact absurd hdisp (by simp)
    · exact absurd hdisp (by simp)
    · have ha : a = a0 := by
        simp only [List.mem_cons, List.mem_singleton] at hdisp
        rcases hdisp with h3 | h3 | h3
        · exact (Event.dispatched.injEq .. ).mp h3 |>.2
        · exact absurd h3 (by simp)
        · exact absurd h3 (by simp)
      subst ha
      exact (depsUnmet_nil_iff s.completed a).mp hd
    · have ha : a = a0 := by
        simp only [List.mem_cons, List.mem_singleton] at hdisp
        rcases hdisp with h3 | h3 | h3 | h3
        · exact (Event.dispatched.injEq .. ).mp h3 |>.2
        · exact absurd h3 (by simp)
        · exact absurd h3 (by simp)
        · exact absurd h3 (by simp)
      subst ha
      exact (depsUnmet_nil_iff s.completed a).mp hd

/-- A concrete dispatch with a satisfied dependency, for the C6 witness. -/
def memStoreDep : Action :=
  { type := "memory_store", query := some "note", priority := some 2,
    dependencies := some [1] }

def sDep : SchedState :=
  { queue := [(0, memStoreDep)], completed := [1], attempts := [],
    results := emptyAccum, nextId := 1 }

def stepDepOut : SchedState × List Event := (execStep envTriv "q" sDep).get (by decide)

/-- C6 witness: the theorem applied at a concrete dispatch whose action
depends on priority 1, already completed. -/
theorem dependency_satisfaction_witness :
    Event.dispatched 0 memStoreDep ∈ stepDepOut.2 ∧
    ∀ d ∈ memStoreDep.dependencies.getD [], d ∈ sDep.completed := by
  refine ⟨by decide, ?_⟩
  exact dependency_satisfaction envTriv "q" sDep stepDepOut.1 stepDepOut.2 0 memStoreDep
    (Option.some_get (by decide)).symm (by decide)


/-- A Fitbit activity payload with data present, for C8. -/
def rawActivityOk : ActivityRaw :=
  { summary := some { steps := some 9000, caloriesOut := some 2100, distances0 := some 6,
                      fairlyActiveMinutes := some 30, veryActiveMinutes := some 20,
                      restingHeartRate := some 58, heartRateZones := some ["Cardio"] },
    goals := none }

/-- An environment with a valid device token and activity data available
for today. -/
def envFit : Env :=
  { envTriv with fitbitToken := some "token",
                 fitbitActivity := fun _ => .data rawActivityOk }

/-- The no-directive device-fetch action the initial-plan prompt itself
emits (part_000 line 121: get_fitbit_data with no "query"). -/
def fitNoQuery : Action :=
  { type := "get_fitbit_data", query := none, priority := some 3, dependencies := some [] }

/-- C8: the two device-data-fetch kinds are documented (initial-plan
prompt, part_000 lines 104-105 and 121-122) to take no `query`, yet
`executeFitbitData` dereferences `action.query` unconditionally (line
2153): with the directive omitted the TypeError is swallowed by the
handler's catch, the device-data collaborator is never consulted, and the
snapshot is NOT overwritten — even though a token is present and data
exists for the date. With any `query` present the same environment does
produce the snapshot, isolating the missing-directive case as the break. -/
theorem fitbit_missing_directive_bug :
    (envFit.fitbitActivity envFit.today = .data rawActivityOk ∧ rawActivityOk.summary.isSome = true) ∧
    executeFitbitData envFit fitNoQuery emptyAccum = emptyAccum ∧
    (executeFitbitData envFit fitNoQuery emptyAccum).fitbitData = none ∧
    (executeFitbitData envFit { fitNoQuery with query := some "fetch activity" } emptyAccum).fitbitData.isSome = true :=
  ⟨⟨rfl, rfl⟩, rfl, rfl, rfl⟩

/-- An environment whose search provider always errors and whose LLM
fallback chain is exhausted on every call, for C1. -/
def envAllFail : Env :=
  { envTriv with googleApiKey := true, googleCseId := true,
                 googleSearch := fun _ => .httpError "quota exceeded",
                 finalModels := fun _ => [none, none, none, none, none] }

/-- A plain search action at priority 1. -/
def searchAct : Action :=
  { type := "google_search", query := some "medical research", priority := some 1,
    dependencies := some [] }

def sSearch : SchedState := initState [searchAct] emptyAccum

/-- C1 counterexample: a handler whose external call fails does NOT raise
to the Scheduler and is NOT counted as an attempt failure. With the
search provider erroring, the dispatch returns ok with the accumulator
unchanged, the Scheduler emits a normal completion (priority 1 enters the
completed-set, the attempt map stays empty) — a silent no-op. Likewise,
a respond action whose LLM fallback chain exhausts all five models
returns ok, and even installs the failure object as the final response. -/
theorem external_failure_is_silent_cex :
    dispatchAction envAllFail "q" searchAct emptyAccum = .ok emptyAccum ∧
    execStep envAllFail "q" sSearch =
      some ({ sSearch with queue := [], completed := [1], results := emptyAccum }, [.dispatched 0 searchAct, .completedOk 0 searchAct]) ∧
    dispatchAction envAllFail "q" { searchAct with type := "formulate_response" } emptyAccum =
      .ok { emptyAccum with finalResponse := some (.obj { success := false, content := none }) } :=
  ⟨rfl, rfl, rfl⟩

/-- C1 (amended): no handler ever raises on an external-call failure —
every failure is absorbed inside the handler (search errors become `[]`,
LLM exhaustion becomes a returned failure object, device/memory errors
are caught), so the dispatch always returns ok and the Scheduler's
exception path (part_000 lines 1616-1627) never fires: no run contains a
retry or drop event of the handler-exception kind, and externally failed
actions are recorded as completed. -/
theorem handlers_never_raise (env : Env) (oq : String) (a : Action) (r : ExecutionResults)
    (fuel : Nat) (s : SchedState) :
    (∃ r1, dispatchAction env oq a r = .ok r1) ∧
    (traceEvents (runSched env oq fuel s).2).countP isFailureEvent = 0 :=
  ⟨dispatch_always_ok env oq a r, run_no_failure_events env oq fuel s⟩


/-- A replacement plan whose single action kind is outside the closed
vocabulary. -/
def bogusPlan : UpdatedPlan :=
  { actions := some [{ type := "launch_rocket", query := some "x", priority := some 1,
                       dependencies := some [] }] }

/-- Progress-analysis output carrying the re-planning magic phrase. -/
def magicText : String := "## UPDATED BREAKDOWN STEPS: 1) do more research"

/-- An environment whose analyzer asks for re-planning and whose Ollama
conversion returns the invalid-kind plan. -/
def envBogus : Env :=
  { envTriv with analyzeModels := fun _ => [some magicText],
                 ollama := fun _ => .ok bogusPlan }

/-- The analyze action that triggers the re-planning path. -/
def analyzeAct : Action :=
  { type := "analyze_results", query := some "assess progress", priority := some 2,
    dependencies := some [] }

/-- C2 counterexample: a replacement plan containing a kind outside the
8-value vocabulary is NOT rejected at plan-acceptance time — it is
installed wholesale (flag set, plan stored) by `check_and_update_plan`,
which performs no validation beyond `JSON.parse`. -/
theorem invalid_kind_plan_accepted_cex :
    "launch_rocket" ∉ actionKinds ∧
    (check_and_update_plan envBogus analyzeAct "q" emptyAccum).planUpdateTriggered = true ∧
    (check_and_update_plan envBogus analyzeAct "q" emptyAccum).updatedPlan = some bogusPlan :=
  ⟨by decide, by decide, by decide⟩

/-- C2 (amended): the re-planning path accepts any successfully parsed
object as the replacement Plan, with no check of the kind vocabulary or
of the priority/dependency shape; an action whose kind is outside the 8
handled kinds therefore reaches dispatch, where the scheduler's default
case treats it as a no-op completion rather than as a validation
failure. -/
theorem replacement_plan_accepted_unvalidated (env : Env) (action : Action) (oq : String)
    (r : ExecutionResults) (s : String) (plan : UpdatedPlan)
    (hc : contentOrSelf (callOpenRouterWithFallback (env.analyzeModels action.query)) = .str s)
    (hm : jsIncludes s magicPhrase = true)
    (ho : env.ollama s = .ok plan) :
    (check_and_update_plan env action oq r).planUpdateTriggered = true ∧
    (check_and_update_plan env action oq r).updatedPlan = some plan ∧
    (∀ env2 oq2 a2 r2, a2.type ∉ actionKinds → dispatchAction env2 oq2 a2 r2 = .ok r2) := by
  refine ⟨?_, ?_, fun env2 oq2 a2 r2 h2 => dispatch_unknown env2 oq2 a2 r2 h2⟩ <;>
    · unfold check_and_update_plan
      dsimp only
      rw [hc]
      simp [hm, ho]

/-- C2 witness: the amended theorem applied at the invalid-kind plan. -/
theorem replacement_plan_accepted_unvalidated_witness :
    (check_and_update_plan envBogus analyzeAct "q" emptyAccum).planUpdateTriggered = true ∧
    (check_and_update_plan envBogus analyzeAct "q" emptyAccum).updatedPlan = some bogusPlan ∧
    (∀ env2 oq2 a2 r2, a2.type ∉ actionKinds → dispatchAction env2 oq2 a2 r2 = .ok r2) :=
  replacement_plan_accepted_unvalidated envBogus analyzeAct "q" emptyAccum magicText bogusPlan
    rfl (by decide) rfl

def sAnalyze : SchedState := initState [analyzeAct] emptyAccum

/-- C3 counterexample: when the Scheduler consumes the re-planning
signal, only the flag is reset — the replacement-Plan reference is NOT
reset to null. After the consuming step, `planUpdateTriggered = false`
but `updatedPlan` still holds the plan (part_000 lines 1629-1636 clear
only `planUpdateTriggered`). -/
theorem replan_consume_keeps_plan_cex :
    (execStep envBogus "q" sAnalyze).map
        (fun x => (x.1.results.planUpdateTriggered, x.1.results.updatedPlan)) =
      some (false, some bogusPlan) ∧
    (some bogusPlan : Option UpdatedPlan) ≠ none :=
  ⟨rfl, by decide⟩

/-- C3 (amended): the analyze handler sets the re-planning flag and the
replacement Plan reference together (lines 1906-1907); when the
Scheduler consumes them it resets the flag to false but leaves the
replacement-Plan reference set (non-null), rather than resetting both. -/
theorem replan_set_together_consume_flag_only :
    (∀ env action oq r, r.planUpdateTriggered = false →
       (check_and_update_plan env action oq r).planUpdateTriggered = true →
       (check_and_update_plan env action oq r).updatedPlan.isSome = true) ∧
    (∀ env oq s s1 evs i a rest, s.queue = (i, a) :: rest →
       execStep env oq s = some (s1, evs) →
       (∀ j ∈ queueIds s, j < s.nextId) →
       Event.planSwapped ∈ evs →
       s1.results.planUpdateTriggered = false ∧ s1.results.updatedPlan.isSome = true) := by
  constructor
  · intro env action oq r hr htrig
    unfold check_and_update_plan at htrig ⊢
    dsimp only at htrig ⊢
    generalize contentOrSelf (callOpenRouterWithFallback (env.analyzeModels action.query)) = pc at htrig ⊢
    cases pc with
    | obj o =>
      simp [basicAnalysis, hr] at htrig
    | str s2 =>
      by_cases hm2 : jsIncludes s2 magicPhrase = true
      · cases hol : env.ollama s2 with
        | ok plan =>
          simp [hm2, hol]
        | badResponse m =>
          simp [hm2, hol, hr] at htrig
        | callError m =>
          simp [hm2, hol, hr] at htrig
      · simp [hm2, hr] at htrig
  · intro env oq s s1 evs i a rest hq h hbd hsw
    obtain ⟨p, hplan, hflag, _, _, _, _, _⟩ :=
      swap_step_props env oq s s1 evs i a rest hq h hbd hsw
    exact ⟨hflag, by rw [hplan]; rfl⟩

def stepSwapOut : SchedState × List Event := (execStep envBogus "q" sAnalyze).get (by decide)

/-- C3 witness: both parts applied at the concrete re-planning run. -/
theorem replan_set_together_consume_flag_only_witness :
    (check_and_update_plan envBogus analyzeAct "q" emptyAccum).updatedPlan.isSome = true ∧
    stepSwapOut.1.results.planUpdateTriggered = false ∧
    stepSwapOut.1.results.updatedPlan.isSome = true := by
  have h1 := (replan_set_together_consume_flag_only).1 envBogus analyzeAct "q" emptyAccum rfl rfl
  have h2 := (replan_set_together_consume_flag_only).2 envBogus "q" sAnalyze
    stepSwapOut.1 stepSwapOut.2 0 analyzeAct [] rfl (Option.some_get (by decide)).symm
    (by decide) (by decide)
  exact ⟨h1, h2.1, h2.2⟩


/-- C4: re-planning is atomic for the queue. Part 1: at the step where
the Scheduler observes the re-planning signal, the entire remaining
queue is discarded and replaced by the replacement Plan's actions,
stable-sorted by priority; the attempt-count map is cleared; the
completed-set is NOT cleared (it only grows); and every old queue entry
is gone. Part 2: an entry absent from the queue (with its id below the
fresh-id bound, as all old entries are) is never again in the queue and
is never dispatched for the rest of the run — so no Action of the old
Plan executes after the newer Plan has been installed. -/
theorem replanning_atomicity :
    (∀ env oq s s1 evs i a rest, s.queue = (i, a) :: rest →
       execStep env oq s = some (s1, evs) →
       (∀ j ∈ queueIds s, j < s.nextId) →
       Event.planSwapped ∈ evs →
       ∃ p, s1.results.updatedPlan = some p ∧
         s1.queue.map Prod.snd = sortActions (p.actions.getD []) ∧
         s1.attempts = [] ∧
         s.completed ⊆ s1.completed ∧
         (∀ j ∈ queueIds s, j ∉ queueIds s1)) ∧
    (∀ env oq fuel s j, j ∉ queueIds s → j < s.nextId →
       ∀ bt ∈ (runSched env oq fuel s).2,
         j ∉ queueIds bt.1 ∧ ∀ e ∈ bt.2, ∀ a2, e ≠ Event.dispatched j a2) := by
  constructor
  · intro env oq s s1 evs i a rest hq h hbd hsw
    obtain ⟨p, h1, hflag, hqueue, hatt, hsub, hnotin, hnext⟩ :=
      swap_step_props env oq s s1 evs i a rest hq h hbd hsw
    exact ⟨p, h1, hqueue, hatt, hsub, hnotin⟩
  · intro env oq fuel s j hj hb bt hbm
    obtain ⟨h1, h2⟩ := notin_run env oq fuel s j hj hb bt hbm
    refine ⟨h1, fun e he a2 hea => h2 e he ?_⟩
    rw [hea]
    rfl

/-- The post-swap trace of the concrete re-planning run, for the C4
witness. -/
def batchAfterSwap : SchedState × List Event :=
  (runSched envBogus "q" 3 stepSwapOut.1).2.getD 0 (stepSwapOut.1, [])

/-- C4 witness: at the concrete re-planning step the queue becomes the
sorted replacement plan, attempts are cleared, and the old entry (id 0)
is out of the queue now and in the following step. -/
theorem replanning_atomicity_witness :
    stepSwapOut.1.queue.map Prod.snd = sortActions (bogusPlan.actions.getD []) ∧
    stepSwapOut.1.attempts = [] ∧
    (0 : Nat) ∉ queueIds stepSwapOut.1 ∧
    (0 : Nat) ∉ queueIds batchAfterSwap.1 := by
  obtain ⟨p, hp1, hqueue, hatt, hsub, hnotin⟩ :=
    (replanning_atomicity).1 envBogus "q" sAnalyze stepSwapOut.1 stepSwapOut.2 0 analyzeAct []
      rfl (Option.some_get (by decide)).symm (by decide) (by decide)
  have hpb : p = bogusPlan := by
    have : stepSwapOut.1.results.updatedPlan = some bogusPlan := by decide
    rw [hp1] at this
    exact Option.some.inj this
  subst hpb
  have h0 : (0 : Nat) ∉ queueIds stepSwapOut.1 := hnotin 0 (by decide)
  have hlt : (0 : Nat) < stepSwapOut.1.nextId := by decide
  have h4 := ((replanning_atomicity).2 envBogus "q" 3 stepSwapOut.1 0 h0 hlt
    batchAfterSwap (by decide)).1
  exact ⟨hqueue, hatt, h0, h4⟩

/-- C5: bounded attempts. Part 1: over a whole run from a job's initial
state, no queue entry is dispatched more than `maxRetries` times, nor
deferred for unmet dependencies more than `maxRetries` times (for any
positive configured budget; the default is 3). Part 2: at the step where
an entry is permanently dropped — on the unmet-dependency path or the
handler-exception path — it leaves the queue. Part 3: an entry out of
the queue never appears in the queue again. -/
theorem bounded_attempts :
    (∀ env oq, 1 ≤ env.maxRetries → ∀ fuel acts r j,
       cntDisp j (traceEvents (runSched env oq fuel (initState acts r)).2) ≤ env.maxRetries ∧
       cntDefer j (traceEvents (runSched env oq fuel (initState acts r)).2) ≤ env.maxRetries) ∧
    (∀ env oq s s1 evs i a rest j b, s.queue = (i, a) :: rest →
       execStep env oq s = some (s1, evs) →
       (queueIds s).Nodup → (∀ k ∈ queueIds s, k < s.nextId) →
       (Event.depDropped j b ∈ evs ∨ Event.failDropped j b ∈ evs) →
       j ∉ queueIds s1 ∧ j < s1.nextId) ∧
    (∀ env oq fuel s j, j ∉ queueIds s → j < s.nextId →
       ∀ bt ∈ (runSched env oq fuel s).2, j ∉ queueIds bt.1) := by
  refine ⟨?_, ?_, ?_⟩
  · intro env oq hM fuel acts r j
    exact run_counts_bounded env oq hM fuel acts r j
  · intro env oq s s1 evs i a rest j b hq h hnd hbd hdrop
    exact drop_step env oq s s1 evs i a rest j b hq h hnd hbd hdrop
  · intro env oq fuel s j hj hb bt hbm
    exact (notin_run env oq fuel s j hj hb bt hbm).1

/-- An action depending on a priority that never exists (scenario 2 of
the spec). -/
def dep5Act : Action :=
  { type := "memory_store", query := some "note", priority := some 1, dependencies := some [5] }

/-- A dependency-free follow-up action. -/
def noteAct : Action :=
  { type := "memory_store", query := some "note2", priority := some 2, dependencies := some [] }

/-- A state whose head has exhausted its budget (attempt count 3 under
the default `maxRetries = 3`). -/
def sExhausted : SchedState :=
  { queue := [(0, dep5Act), (1, noteAct)], completed := [], attempts := [(some 1, 3)],
    results := emptyAccum, nextId := 2 }

def stepDropOut : SchedState × List Event := (execStep envTriv "q" sExhausted).get (by decide)

def batchAfterDrop : SchedState × List Event :=
  (runSched envTriv "q" 3 stepDropOut.1).2.getD 0 (stepDropOut.1, [])

/-- C5 witness: the three parts applied at the default budget of 3, an
unresolvable-dependency plan, and a concrete exhausted-budget drop. -/
theorem bounded_attempts_witness :
    cntDisp 0 (traceEvents (runSched envTriv "q" 10 (initState [dep5Act] emptyAccum)).2) ≤ 3 ∧
    cntDefer 0 (traceEvents (runSched envTriv "q" 10 (initState [dep5Act] emptyAccum)).2) ≤ 3 ∧
    (0 : Nat) ∉ queueIds stepDropOut.1 ∧
    (0 : Nat) ∉ queueIds batchAfterDrop.1 := by
  have h1 := (bounded_attempts).1 envTriv "q" (by decide) 10 [dep5Act] emptyAccum 0
  have h2 := (bounded_attempts).2.1 envTriv "q" sExhausted stepDropOut.1 stepDropOut.2
    0 dep5Act [(1, noteAct)] 0 dep5Act rfl (Option.some_get (by decide)).symm
    (by decide) (by decide) (Or.inl (by decide))
  have h3 := (bounded_attempts).2.2 envTriv "q" 3 stepDropOut.1 0 h2.1 h2.2
    batchAfterDrop (by decide)
  exact ⟨h1.1, h1.2, h2.1, h3⟩

/-- The two respond actions of spec scenario 5. -/
def respond3 : Action :=
  { type := "formulate_response", query := some "Y3", priority := some 3, dependencies := some [] }

def respond7 : Action :=
  { type := "formulate_response", query := some "Y7", priority := some 7, dependencies := some [] }

/-- C9: the final response is last-write-wins. Part 1:
`executeFormulateResponse` unconditionally overwrites the accumulator's
final response with this call's output, whatever was there before. Part
2: for two respond actions at priorities 3 and 7 with no mutual
dependency, both are dispatched, in priority order, and the final
response equals the text produced by the priority-7 invocation. -/
theorem final_response_last_write_wins :
    (∀ env a r, (executeFormulateResponse env a r).finalResponse =
        some (contentOrSelf (callOpenRouterWithFallback (env.finalModels a.query)))) ∧
    (∀ env t3 t7, env.finalModels (some "Y3") = [some t3] →
       env.finalModels (some "Y7") = [some t7] → t3 ≠ "" → t7 ≠ "" →
       (runSched env "q" 5 (initState [respond3, respond7] emptyAccum)).1.results.finalResponse
         = some (.str t7) ∧
       traceEvents (runSched env "q" 5 (initState [respond3, respond7] emptyAccum)).2 =
         [.dispatched 0 respond3, .completedOk 0 respond3,
          .dispatched 1 respond7, .completedOk 1 respond7]) := by
  constructor
  · intro env a r; rfl
  · intro env t3 t7 h3 h7 hne3 hne7
    have hq : initState [respond3, respond7] emptyAccum =
        { queue := [(0, respond3), (1, respond7)], completed := [], attempts := [],
          results := emptyAccum, nextId := 2 } := rfl
    rw [hq]
    simp only [runSched, execStep, dispatchAction, executeFormulateResponse, respond3, respond7,
      depsUnmet, lookupAttempts, markCompleted, insertCompleted, h3, h7, emptyAccum, initResults,
      callOpenRouterWithFallback, contentOrSelf, traceEvents]
    simp [hne3, hne7, h3, h7, callOpenRouterWithFallback, contentOrSelf, traceEvents, respond3,
      respond7, emptyAccum, initResults]


/-- An environment answering the two respond prompts with distinct
texts, for the C9 witness. -/
def envResp : Env :=
  { envTriv with finalModels := fun q =>
      if q = some "Y7" then [some "answer seven"] else [some "answer three"] }

/-- C9 witness: the theorem applied at the concrete two-respond plan. -/
theorem final_response_last_write_wins_witness :
    (runSched envResp "q" 5 (initState [respond3, respond7] emptyAccum)).1.results.finalResponse
      = some (.str "answer seven") ∧
    traceEvents (runSched envResp "q" 5 (initState [respond3, respond7] emptyAccum)).2 =
      [.dispatched 0 respond3, .completedOk 0 respond3,
       .dispatched 1 respond7, .completedOk 1 respond7] :=
  (final_response_last_write_wins).2 envResp "answer three" "answer seven"
    rfl rfl (by decide) (by decide)

end AIDiary
